import Mathlib

/-!
Verification of the social-graph metrics engine
(src/social_graph_analyzer.py) against its specification.

The Python class `SocialGraphAnalyzer` builds an undirected graph from an
adjacency mapping (via networkx's `from_dict_of_lists`) and exposes four
read-only queries: `compute_centrality` (normalized betweenness centrality),
`identify_bottlenecks` (nodes whose score strictly exceeds 0.75 × max),
`detect_communities`, and `analyze_weak_links` (edges of weight < 0.2 keyed
by the Python `str` of the edge tuple).

The embedding below models nodes as `String`, scores and weights as `ℚ`
(the arithmetic involved —  counting shortest paths and dividing counts — is
exact rational arithmetic), and a graph as networkx stores it: an insertion
ordered adjacency list, symmetric by construction, plus an edge-attribute
table for weights.  Fallible construction is an `Except`.
-/

namespace SocialGraph

/-- An undirected graph as networkx represents it: `adj` is the insertion
ordered adjacency structure (one entry per node, in node-insertion order;
each entry's list is that node's neighbors in insertion order, kept
symmetric by `addEdge`), and `w` is the edge-attribute table holding the
optional `weight` attribute of an edge (looked up in either orientation). -/
structure Graph where
  adj : List (String × List String)
  w : List ((String × String) × ℚ)
deriving DecidableEq, Repr

/-- `nx.Graph()`: the graph with no nodes and no edges. -/
def emptyGraph : Graph := ⟨[], []⟩

/-- The graph's nodes in insertion order (networkx `G.nodes()`). -/
def Graph.nodes (g : Graph) : List String := g.adj.map Prod.fst

/-- A node's neighbor list in insertion order (networkx adjacency `G[u]`). -/
def Graph.neighbors (g : Graph) (u : String) : List String :=
  match g.adj.find? (fun p => p.1 == u) with
  | some p => p.2
  | none => []

/-- networkx `G.add_node(n)`: appends `n` with an empty adjacency unless it
is already a node. -/
def addNode (g : Graph) (n : String) : Graph :=
  if g.adj.any (fun p => p.1 == n) then g
  else { g with adj := g.adj ++ [(n, [])] }

/-- Record `v` as a neighbor of `u` in the adjacency structure (no-op when
already recorded; `u` must already be a key). -/
def addNbr (adj : List (String × List String)) (u v : String) :
    List (String × List String) :=
  adj.map (fun p =>
    if p.1 == u then (p.1, if p.2.contains v then p.2 else p.2 ++ [v]) else p)

/-- networkx `G.add_edge(u, v)`: adds missing endpoints as nodes, then
records the undirected edge symmetrically in the adjacency structure. -/
def addEdge (g : Graph) (u v : String) : Graph :=
  let g1 := addNode (addNode g u) v
  { g1 with adj := addNbr (addNbr g1.adj u v) v u }

/-- networkx `from_dict_of_lists(d)`: adds every key as a node, then for
each key `k` with neighbor list `v`, adds the edge `(k, n)` for each `n`
in `v`. -/
def fromDictOfLists (d : List (String × List String)) : Graph :=
  let g0 := d.foldl (fun g p => addNode g p.1) emptyGraph
  d.foldl (fun g p => p.2.foldl (fun h n => addEdge h p.1 n) g) g0

/-- `SocialGraphAnalyzer._build_graph`: raises `ValueError` on an empty
mapping, otherwise builds the graph with `from_dict_of_lists`. -/
def buildGraph (d : List (String × List String)) : Except String Graph :=
  if d.isEmpty then .error "Graph data cannot be empty."
  else .ok (fromDictOfLists d)

/-- networkx `G.edges()`: each undirected edge reported once, discovered by
iterating nodes in insertion order and each node's neighbors in insertion
order, skipping edges already reported from the other endpoint. -/
def Graph.edges (g : Graph) : List (String × String) :=
  g.adj.foldl
    (fun acc p =>
      p.2.foldl
        (fun acc2 v =>
          if acc2.any (fun e => (e.1 == p.1 && e.2 == v) || (e.1 == v && e.2 == p.1))
          then acc2
          else acc2 ++ [(p.1, v)])
        acc)
    []

/-- `G[u][v].get('weight', 0)`: the stored weight of the edge, in either
orientation, defaulting to 0 when the attribute is absent. -/
def Graph.weight (g : Graph) (u v : String) : ℚ :=
  match g.w.find? (fun q => (q.1.1 == u && q.1.2 == v) || (q.1.1 == v && q.1.2 == u)) with
  | some q => q.2
  | none => 0

/-- All simple paths from `u` to `t` avoiding `visited`, as node lists;
`fuel` bounds the length (any simple path has at most as many nodes as the
graph, so fuel `|nodes| + 1` is exhaustive). -/
def pathsAux (g : Graph) (t : String) : Nat → String → List String → List (List String)
  | 0, _, _ => []
  | fuel + 1, u, visited =>
    if u == t then [[u]]
    else
      ((g.neighbors u).filter (fun v => !(u :: visited).contains v)).flatMap
        (fun v => (pathsAux g t fuel v (u :: visited)).map (fun p => u :: p))

/-- All simple paths from `s` to `t` in `g`. -/
def simplePaths (g : Graph) (s t : String) : List (List String) :=
  pathsAux g t (g.nodes.length + 1) s []

/-- The least length among the given paths (0 when there are none). -/
def minLen (ps : List (List String)) : Nat :=
  match ps.map List.length with
  | [] => 0
  | x :: xs => xs.foldl Nat.min x

/-- The shortest paths from `s` to `t`: the simple paths of minimal length. -/
def shortestPaths (g : Graph) (s t : String) : List (List String) :=
  let ps := simplePaths g s t
  let d := minLen ps
  ps.filter (fun p => p.length == d)

/-- All ordered pairs `(s, t)` of distinct nodes both different from `v`. -/
def nodePairsAvoiding (g : Graph) (v : String) : List (String × String) :=
  (g.nodes.flatMap (fun s => g.nodes.map (fun t => (s, t)))).filter
    (fun p => p.1 != p.2 && p.1 != v && p.2 != v)

/-- Unnormalized betweenness of `v`: over all ordered pairs `(s, t)` of
other nodes, the fraction of shortest `s`–`t` paths passing through `v`
(0 for unreachable pairs, where both counts are 0). -/
def rawBetweenness (g : Graph) (v : String) : ℚ :=
  ((nodePairsAvoiding g v).map (fun p =>
    (((shortestPaths g p.1 p.2).filter (fun q => q.contains v)).length : ℚ) /
      ((shortestPaths g p.1 p.2).length : ℚ))).sum

/-- networkx's normalization scale for undirected betweenness centrality:
`1 / ((n-1)(n-2))` applied to the ordered-pair accumulation when `n > 2`,
and no rescaling when `n ≤ 2`. -/
def betweennessScale (n : Nat) : ℚ :=
  if n ≤ 2 then 1 else 1 / (((n - 1 : Nat) : ℚ) * ((n - 2 : Nat) : ℚ))

/-- `SocialGraphAnalyzer.compute_centrality`: returns the empty mapping on
a graph with no nodes (warning branch), otherwise the normalized
betweenness centrality of every node, in node order (networkx
`betweenness_centrality`). -/
def computeCentrality (g : Graph) : List (String × ℚ) :=
  if g.nodes.isEmpty then []
  else g.nodes.map (fun v => (v, rawBetweenness g v * betweennessScale g.nodes.length))

/-- Python `max` over a nonempty list of values (0 on the empty list, a
case the callers below never reach it in). -/
def maxVal : List ℚ → ℚ
  | [] => 0
  | x :: xs => xs.foldl max x

/-- `SocialGraphAnalyzer.identify_bottlenecks`: empty when there are no
centrality scores, otherwise the scores strictly above
`max(scores) * 0.75`. -/
def identifyBottlenecks (g : Graph) : List (String × ℚ) :=
  if (computeCentrality g).isEmpty then []
  else (computeCentrality g).filter
    (fun p => maxVal ((computeCentrality g).map Prod.snd) * (3 / 4) < p.2)

/-- `SocialGraphAnalyzer.detect_communities`: returns the empty mapping on
a graph with no nodes (warning branch); otherwise the source calls
`nx.community.greedy_communities(self.graph)`, an attribute that does not
exist in networkx (the library's function is
`greedy_modularity_communities`), so the lookup raises `AttributeError`,
which the method logs and re-raises. -/
def detectCommunities (g : Graph) : Except String (List (Nat × List String)) :=
  if g.nodes.isEmpty then .ok []
  else .error "AttributeError: module networkx.algorithms.community has no attribute greedy_communities"

/-- Python `str(edge)` for an edge tuple of two strings, e.g.
`str(('A', 'B'))` is `"('A', 'B')"`. -/
def strEdge (e : String × String) : String :=
  "('" ++ e.1 ++ "', '" ++ e.2 ++ "')"

/-- `SocialGraphAnalyzer.analyze_weak_links`: empty when the graph has no
edges (warning branch); otherwise the edges whose weight (default 0) is
strictly below 0.2, keyed by `str(edge)`. -/
def analyzeWeakLinks (g : Graph) : List (String × ℚ) :=
  if g.edges.isEmpty then []
  else
    g.edges.filterMap (fun e =>
      if g.weight e.1 e.2 < 1 / 5 then some (strEdge e, g.weight e.1 e.2) else none)

/-- The engine's state: the stored input mapping and the graph built at
construction (the two attributes `__init__` assigns). -/
structure SocialGraphAnalyzer where
  graph_data : List (String × List String)
  graph : Graph
deriving DecidableEq

/-- `SocialGraphAnalyzer.__init__`: stores the input and builds the graph;
a construction error yields no engine at all. -/
def makeAnalyzer (d : List (String × List String)) : Except String SocialGraphAnalyzer :=
  (buildGraph d).map (fun g => ⟨d, g⟩)

/-- `compute_centrality` as a state-passing method: the body reads
`self.graph`, assigns no attribute, and returns the scores, so the engine
state it leaves behind is the one it received. -/
def computeCentralityM (a : SocialGraphAnalyzer) :
    List (String × ℚ) × SocialGraphAnalyzer :=
  (computeCentrality a.graph, a)

/-- `identify_bottlenecks` as a state-passing method (no attribute is
assigned in its body). -/
def identifyBottlenecksM (a : SocialGraphAnalyzer) :
    List (String × ℚ) × SocialGraphAnalyzer :=
  (identifyBottlenecks a.graph, a)

/-- `detect_communities` as a state-passing method (no attribute is
assigned in its body). -/
def detectCommunitiesM (a : SocialGraphAnalyzer) :
    Except String (List (Nat × List String)) × SocialGraphAnalyzer :=
  (detectCommunities a.graph, a)

/-- `analyze_weak_links` as a state-passing method (no attribute is
assigned in its body). -/
def analyzeWeakLinksM (a : SocialGraphAnalyzer) :
    List (String × ℚ) × SocialGraphAnalyzer :=
  (analyzeWeakLinks a.graph, a)

/-- The spec's running example: adjacency A → [B, C], B → [A], C → [A]. -/
def dStar : List (String × List String) := [("A", ["B", "C"]), ("B", ["A"]), ("C", ["A"])]

/-- The graph of the running example (a star centered at A). -/
def gStar : Graph := fromDictOfLists dStar

/-- A 4-cycle A–B–C–D–A: every node has the same nonzero betweenness. -/
def dCycle : List (String × List String) :=
  [("A", ["B", "D"]), ("B", ["A", "C"]), ("C", ["B", "D"]), ("D", ["C", "A"])]

/-- The 4-cycle graph. -/
def gCycle : Graph := fromDictOfLists dCycle

/-- The spec's weak-link example: edges A–B and A–C with weights 0.1 and
0.5 (weights set on the graph, as the constructor itself attaches none). -/
def gWeighted : Graph :=
  { fromDictOfLists [("A", ["B", "C"])] with
    w := [(("A", "B"), 1 / 10), (("A", "C"), 1 / 2)] }

/-- Dictionary lookup `scores[v]` on the association-list image of a Python
dict (0 when absent; the uses below never look up an absent key). -/
def getScore (cs : List (String × ℚ)) (v : String) : ℚ :=
  match cs.find? (fun p => p.1 == v) with
  | some p => p.2
  | none => 0

theorem mem_nodes_addNode_self (g : Graph) (n : String) : n ∈ (addNode g n).nodes := by
  unfold addNode
  split
  · next h =>
    rw [List.any_eq_true] at h
    obtain ⟨p, hp, hpn⟩ := h
    rw [beq_iff_eq] at hpn
    exact hpn ▸ List.mem_map_of_mem Prod.fst hp
  · simp [Graph.nodes]

theorem mem_nodes_addNode_of_mem {g : Graph} {x : String} (n : String)
    (hx : x ∈ g.nodes) : x ∈ (addNode g n).nodes := by
  unfold addNode
  split
  · exact hx
  · simp only [Graph.nodes, List.map_append, List.mem_append]
    exact Or.inl hx

theorem map_fst_addNbr (adj : List (String × List String)) (u v : String) :
    (addNbr adj u v).map Prod.fst = adj.map Prod.fst := by
  unfold addNbr
  rw [List.map_map]
  apply List.map_congr_left
  intro p _
  show (if (p.1 == u) = true then (p.1, if p.2.contains v = true then p.2 else p.2 ++ [v]) else p).1 = p.1
  split <;> rfl

theorem nodes_addEdge (g : Graph) (u v : String) :
    (addEdge g u v).nodes = (addNode (addNode g u) v).nodes := by
  unfold addEdge Graph.nodes
  rw [map_fst_addNbr, map_fst_addNbr]

theorem mem_nodes_addEdge_of_mem {g : Graph} {x : String} (u v : String)
    (hx : x ∈ g.nodes) : x ∈ (addEdge g u v).nodes := by
  rw [nodes_addEdge]
  exact mem_nodes_addNode_of_mem v (mem_nodes_addNode_of_mem u hx)

theorem mem_nodes_addEdge_left (g : Graph) (u v : String) : u ∈ (addEdge g u v).nodes := by
  rw [nodes_addEdge]
  exact mem_nodes_addNode_of_mem v (mem_nodes_addNode_self g u)

theorem mem_nodes_addEdge_right (g : Graph) (u v : String) : v ∈ (addEdge g u v).nodes := by
  rw [nodes_addEdge]
  exact mem_nodes_addNode_self (addNode g u) v

/-- A fold by a node-preserving step preserves node membership. -/
theorem mem_nodes_foldl {β : Type} {f : Graph → β → Graph}
    (hf : ∀ g b x, x ∈ g.nodes → x ∈ (f g b).nodes) (l : List β) (g : Graph)
    (x : String) (hx : x ∈ g.nodes) : x ∈ (l.foldl f g).nodes := by
  induction l generalizing g with
  | nil => exact hx
  | cons b t ih => exact ih _ (hf _ _ _ hx)

theorem key_mem_foldl_addNode {d : List (String × List String)}
    {p : String × List String} (hp : p ∈ d) (g : Graph) :
    p.1 ∈ (d.foldl (fun h q => addNode h q.1) g).nodes := by
  induction d generalizing g with
  | nil => cases hp
  | cons q t ih =>
    rcases List.mem_cons.mp hp with hq | ht
    · subst hq
      exact mem_nodes_foldl (fun _ _ _ h => mem_nodes_addNode_of_mem _ h) t _ _
        (mem_nodes_addNode_self g p.1)
    · exact ih ht _

theorem mem_foldl_addEdge_of_mem {x k : String} (ns : List String) (g : Graph)
    (hx : x ∈ g.nodes) : x ∈ (ns.foldl (fun h n => addEdge h k n) g).nodes :=
  mem_nodes_foldl (fun _ _ _ h => mem_nodes_addEdge_of_mem _ _ h) ns g x hx

theorem nbr_mem_foldl_addEdge {n k : String} {ns : List String} (hn : n ∈ ns)
    (g : Graph) : n ∈ (ns.foldl (fun h m => addEdge h k m) g).nodes := by
  induction ns generalizing g with
  | nil => cases hn
  | cons m t ih =>
    rcases List.mem_cons.mp hn with hm | ht
    · subst hm
      exact mem_foldl_addEdge_of_mem t _ (mem_nodes_addEdge_right g k n)
    · exact ih ht _

theorem mem_edgePhase_of_mem {x : String} (d : List (String × List String))
    (g : Graph) (hx : x ∈ g.nodes) :
    x ∈ (d.foldl (fun h p => p.2.foldl (fun h2 n => addEdge h2 p.1 n) h) g).nodes :=
  mem_nodes_foldl (fun g p _ hy => mem_foldl_addEdge_of_mem p.2 g hy) d g x hx

/-- Every key of the input mapping is a node of `fromDictOfLists`. -/
theorem key_mem_fromDictOfLists {d : List (String × List String)}
    {p : String × List String} (hp : p ∈ d) : p.1 ∈ (fromDictOfLists d).nodes :=
  mem_edgePhase_of_mem d _ (key_mem_foldl_addNode hp emptyGraph)

theorem nbr_mem_edgePhase {d : List (String × List String)}
    {p : String × List String} {n : String} (hp : p ∈ d) (hn : n ∈ p.2)
    (g : Graph) :
    n ∈ (d.foldl (fun h q => q.2.foldl (fun h2 m => addEdge h2 q.1 m) h) g).nodes := by
  induction d generalizing g with
  | nil => cases hp
  | cons q t ih =>
    rcases List.mem_cons.mp hp with hq | ht
    · subst hq
      exact mem_edgePhase_of_mem t _ (nbr_mem_foldl_addEdge hn _)
    · exact ih ht _

/-- Every listed neighbor of the input mapping is a node of
`fromDictOfLists`. -/
theorem nbr_mem_fromDictOfLists {d : List (String × List String)}
    {p : String × List String} {n : String} (hp : p ∈ d) (hn : n ∈ p.2) :
    n ∈ (fromDictOfLists d).nodes :=
  nbr_mem_edgePhase hp hn _

theorem le_foldl_max (l : List ℚ) (a : ℚ) : a ≤ l.foldl max a := by
  induction l generalizing a with
  | nil => exact le_refl a
  | cons b t ih => exact le_trans (le_max_left a b) (ih (max a b))

theorem mem_le_foldl_max {x : ℚ} {l : List ℚ} (a : ℚ) (hx : x ∈ l) :
    x ≤ l.foldl max a := by
  induction l generalizing a with
  | nil => cases hx
  | cons b t ih =>
    rcases List.mem_cons.mp hx with hb | ht
    · subst hb
      exact le_trans (le_max_right a x) (le_foldl_max t _)
    · exact ih _ ht

theorem foldl_max_mem (l : List ℚ) (a : ℚ) : l.foldl max a = a ∨ l.foldl max a ∈ l := by
  induction l generalizing a with
  | nil => exact Or.inl rfl
  | cons b t ih =>
    have hstep : (b :: t).foldl max a = t.foldl max (max a b) := rfl
    rcases ih (max a b) with h | h
    · rcases max_choice a b with h2 | h2
      · exact Or.inl (by rw [hstep, h, h2])
      · exact Or.inr (by rw [hstep, h, h2]; exact List.mem_cons_self b t)
    · exact Or.inr (by rw [hstep]; exact List.mem_cons_of_mem b h)

theorem le_maxVal {l : List ℚ} {x : ℚ} (hx : x ∈ l) : x ≤ maxVal l := by
  cases l with
  | nil => cases hx
  | cons b t =>
    rcases List.mem_cons.mp hx with hb | ht
    · subst hb
      exact le_foldl_max t x
    · exact mem_le_foldl_max b ht

theorem maxVal_mem {l : List ℚ} (hl : l ≠ []) : maxVal l ∈ l := by
  cases l with
  | nil => cases hl rfl
  | cons b t =>
    rcases foldl_max_mem t b with h | h
    · rw [show maxVal (b :: t) = t.foldl max b from rfl, h]
      exact List.mem_cons_self b t
    · exact List.mem_cons_of_mem b h

theorem rawBetweenness_nonneg (g : Graph) (v : String) : 0 ≤ rawBetweenness g v := by
  unfold rawBetweenness
  apply List.sum_nonneg
  intro x hx
  rw [List.mem_map] at hx
  obtain ⟨p, _, hp⟩ := hx
  rw [← hp]
  exact div_nonneg (Nat.cast_nonneg _) (Nat.cast_nonneg _)

theorem betweennessScale_nonneg (n : Nat) : 0 ≤ betweennessScale n := by
  unfold betweennessScale
  split
  · norm_num
  · exact div_nonneg zero_le_one (mul_nonneg (Nat.cast_nonneg _) (Nat.cast_nonneg _))

/-- Every centrality score is nonnegative (a ratio of path counts scaled
by a nonnegative factor). -/
theorem centrality_nonneg {g : Graph} {p : String × ℚ}
    (hp : p ∈ computeCentrality g) : 0 ≤ p.2 := by
  unfold computeCentrality at hp
  split at hp
  · cases hp
  · rw [List.mem_map] at hp
    obtain ⟨v, _, hv⟩ := hp
    rw [← hv]
    exact mul_nonneg (rawBetweenness_nonneg g v) (betweennessScale_nonneg _)

/-- C1: construction on the empty adjacency mapping raises ValueError, and
no engine (not even a partial one) is produced; on every non-empty mapping
construction returns an engine and no empty-input error is raised. -/
theorem C1_empty_mapping_fails (d : List (String × List String)) :
    (d = [] → buildGraph d = .error "Graph data cannot be empty." ∧
      makeAnalyzer d = .error "Graph data cannot be empty.") ∧
    (d ≠ [] → buildGraph d = .ok (fromDictOfLists d) ∧
      makeAnalyzer d = .ok ⟨d, fromDictOfLists d⟩) := by
  constructor
  · intro h
    subst h
    exact ⟨rfl, rfl⟩
  · intro h
    cases d with
    | nil => cases h rfl
    | cons q t => exact ⟨rfl, rfl⟩

/-- C2: for every non-empty adjacency mapping construction succeeds, and
every key of the mapping and every node listed in any neighbor list is a
node of the constructed graph. -/
theorem C2_all_inputs_become_nodes (d : List (String × List String)) (hd : d ≠ []) :
    buildGraph d = .ok (fromDictOfLists d) ∧
    ∀ p ∈ d, p.1 ∈ (fromDictOfLists d).nodes ∧
      ∀ n ∈ p.2, n ∈ (fromDictOfLists d).nodes := by
  refine ⟨?_, fun p hp =>
    ⟨key_mem_fromDictOfLists hp, fun _ hn => nbr_mem_fromDictOfLists hp hn⟩⟩
  cases d with
  | nil => cases hd rfl
  | cons q t => rfl

/-- Witness for C2 at the star mapping: construction succeeds and the
neighbor-only view of the listed nodes B and C are graph nodes. -/
theorem C2_all_inputs_become_nodes_w :
    buildGraph dStar = .ok gStar ∧ "B" ∈ gStar.nodes ∧ "C" ∈ gStar.nodes :=
  ⟨(C2_all_inputs_become_nodes dStar (by decide)).1,
   ((C2_all_inputs_become_nodes dStar (by decide)).2 ("A", ["B", "C"]) (by decide)).2
     "B" (by decide),
   ((C2_all_inputs_become_nodes dStar (by decide)).2 ("A", ["B", "C"]) (by decide)).2
     "C" (by decide)⟩

/-- C3: every entry returned by identify_bottlenecks has a score strictly
greater than max(all centrality scores) × 0.75; equivalently no entry at
or below that threshold is returned. -/
theorem C3_returned_scores_exceed_threshold (g : Graph) (p : String × ℚ)
    (hp : p ∈ identifyBottlenecks g) :
    maxVal ((computeCentrality g).map Prod.snd) * (3 / 4) < p.2 := by
  unfold identifyBottlenecks at hp
  split at hp
  · cases hp
  · exact of_decide_eq_true (List.mem_filter.mp hp).2

/-- Witness for C3 at the star graph, whose bottleneck list contains
("A", 1). -/
theorem C3_returned_scores_exceed_threshold_w :
    maxVal ((computeCentrality gStar).map Prod.snd) * (3 / 4) < (1 : ℚ) :=
  C3_returned_scores_exceed_threshold gStar ("A", 1)
    (of_decide_eq_true (by with_unfolding_all rfl))

/-- C4 as stated is false on the code: on the 4-cycle every centrality
score equals the same nonzero 1/6, and identify_bottlenecks returns every
node (each score strictly exceeds the threshold (1/6) × 0.75 = 1/8), not
the empty mapping. -/
theorem C4_equal_scores_cex :
    computeCentrality gCycle =
      [("A", 1 / 6), ("B", 1 / 6), ("C", 1 / 6), ("D", 1 / 6)] ∧
    identifyBottlenecks gCycle =
      [("A", 1 / 6), ("B", 1 / 6), ("C", 1 / 6), ("D", 1 / 6)] :=
  ⟨of_decide_eq_true (by with_unfolding_all rfl),
   of_decide_eq_true (by with_unfolding_all rfl)⟩

/-- C4 amended: when all centrality scores are equal and non-zero,
identify_bottlenecks returns the full centrality mapping (every node),
since each score strictly exceeds 0.75 times the common maximum. -/
theorem C4_equal_scores_returns_all (g : Graph) (c : ℚ)
    (hall : ∀ p ∈ computeCentrality g, p.2 = c) (hc : c ≠ 0) :
    identifyBottlenecks g = computeCentrality g := by
  by_cases hne : computeCentrality g = []
  · unfold identifyBottlenecks
    rw [hne]
    rfl
  · have hbool : ¬((computeCentrality g).isEmpty = true) := by
      simpa [List.isEmpty_eq_true] using hne
    obtain ⟨p0, hp0⟩ := List.exists_mem_of_ne_nil _ hne
    have hcpos : 0 < c :=
      lt_of_le_of_ne (hall p0 hp0 ▸ centrality_nonneg hp0) (Ne.symm hc)
    have hmax : maxVal ((computeCentrality g).map Prod.snd) = c := by
      have hmapne : (computeCentrality g).map Prod.snd ≠ [] := by
        simpa [List.map_eq_nil_iff] using hne
      have hmem := maxVal_mem hmapne
      rw [List.mem_map] at hmem
      obtain ⟨q, hq, hq2⟩ := hmem
      rw [← hq2]
      exact hall q hq
    unfold identifyBottlenecks
    rw [if_neg hbool, hmax]
    apply List.filter_eq_self.mpr
    intro p hp
    rw [hall p hp]
    exact decide_eq_true (by linarith)

/-- Witness for the amended C4 at the 4-cycle (common score 1/6). -/
theorem C4_equal_scores_returns_all_w :
    identifyBottlenecks gCycle = computeCentrality gCycle :=
  C4_equal_scores_returns_all gCycle (1 / 6)
    (of_decide_eq_true (by with_unfolding_all rfl)) (by norm_num)

/-- C5 as stated is false on the code: str(edge) keeps Python's repr
quotes and the orientation of graph iteration order, so the example
returns the key "('A', 'B')" and not "(A, B)", and the same undirected
edge gets different keys depending on which endpoint was inserted
first. -/
theorem C5_key_not_canonical_cex :
    analyzeWeakLinks gWeighted ≠ [("(A, B)", 1 / 10)] ∧
    analyzeWeakLinks gWeighted = [("('A', 'B')", 1 / 10)] ∧
    analyzeWeakLinks (fromDictOfLists [("A", ["B"])]) = [("('A', 'B')", 0)] ∧
    analyzeWeakLinks (fromDictOfLists [("B", ["A"])]) = [("('B', 'A')", 0)] :=
  ⟨of_decide_eq_true (by with_unfolding_all rfl),
   of_decide_eq_true (by with_unfolding_all rfl),
   of_decide_eq_true (by with_unfolding_all rfl),
   of_decide_eq_true (by with_unfolding_all rfl)⟩

/-- C5 amended: analyze_weak_links returns exactly the edges whose weight
(default 0 when the attribute is absent) is strictly below 0.2, keyed by
str(edge) in the graph's edge iteration orientation (not canonicalized
across orientations); on the example weighted graph it returns exactly
the mapping sending "('A', 'B')" to 0.1. -/
theorem C5_weak_links_exact (g : Graph) (s : String) (x : ℚ) :
    ((s, x) ∈ analyzeWeakLinks g ↔
      ∃ e ∈ g.edges, g.weight e.1 e.2 < 1 / 5 ∧ s = strEdge e ∧
        x = g.weight e.1 e.2) ∧
    analyzeWeakLinks gWeighted = [("('A', 'B')", 1 / 10)] := by
  constructor
  · unfold analyzeWeakLinks
    by_cases h : g.edges = []
    · rw [h]
      simp
    · rw [if_neg (by simpa [List.isEmpty_eq_true] using h), List.mem_filterMap]
      constructor
      · rintro ⟨e, he, hfe⟩
        by_cases hw : g.weight e.1 e.2 < 1 / 5
        · rw [if_pos hw] at hfe
          obtain ⟨h1, h2⟩ := Prod.mk.injEq .. ▸ Option.some.injEq .. ▸ hfe
          exact ⟨e, he, hw, h1.symm, h2.symm⟩
        · rw [if_neg hw] at hfe
          cases hfe
      · rintro ⟨e, he, hw, hs, hx⟩
        exact ⟨e, he, by rw [if_pos hw, hs, hx]⟩
  · exact of_decide_eq_true (by with_unfolding_all rfl)

/-- C6: the no-nodes branch of detect_communities does return the empty
mapping, but on any graph with nodes (e.g. the connected star) the method
raises instead of returning a single community: the attribute
nx.community.greedy_communities does not exist in networkx. -/
theorem C6_detect_communities_eval :
    detectCommunities emptyGraph = .ok [] ∧
    detectCommunities gStar =
      .error "AttributeError: module networkx.algorithms.community has no attribute greedy_communities" :=
  ⟨rfl, rfl⟩

/-- C7: the star adjacency builds a graph with 3 nodes and 2 edges, and
compute_centrality gives A (score 1) a strictly greater score than B and
than C (score 0). -/
theorem C7_star_example :
    buildGraph dStar = .ok gStar ∧
    gStar.nodes.length = 3 ∧ gStar.edges.length = 2 ∧
    computeCentrality gStar = [("A", 1), ("B", 0), ("C", 0)] ∧
    getScore (computeCentrality gStar) "B" < getScore (computeCentrality gStar) "A" ∧
    getScore (computeCentrality gStar) "C" < getScore (computeCentrality gStar) "A" :=
  ⟨rfl, rfl, rfl,
   of_decide_eq_true (by with_unfolding_all rfl),
   of_decide_eq_true (by with_unfolding_all rfl),
   of_decide_eq_true (by with_unfolding_all rfl)⟩

/-- C8: each of the four queries, read as a state-passing method, returns
the engine state it received (the stored mapping and the graph are
unchanged), and calling it again on that state returns an equal result. -/
theorem C8_queries_pure (a : SocialGraphAnalyzer) :
    (computeCentralityM a).2 = a ∧ (identifyBottlenecksM a).2 = a ∧
    (detectCommunitiesM a).2 = a ∧ (analyzeWeakLinksM a).2 = a ∧
    (computeCentralityM ((computeCentralityM a).2)).1 = (computeCentralityM a).1 ∧
    (identifyBottlenecksM ((identifyBottlenecksM a).2)).1 = (identifyBottlenecksM a).1 ∧
    (detectCommunitiesM ((detectCommunitiesM a).2)).1 = (detectCommunitiesM a).1 ∧
    (analyzeWeakLinksM ((analyzeWeakLinksM a).2)).1 = (analyzeWeakLinksM a).1 :=
  ⟨rfl, rfl, rfl, rfl, rfl, rfl, rfl, rfl⟩

/-- C9: a successfully constructed engine always has at least one node, so
the no-nodes warning branches of compute_centrality and detect_communities
(both guarded by the node list being empty) are unreachable on it; in
particular compute_centrality on it is never the empty mapping. -/
theorem C9_no_empty_branch (d : List (String × List String)) (g : Graph)
    (h : buildGraph d = .ok g) :
    g.nodes.isEmpty = false ∧ computeCentrality g ≠ [] := by
  cases d with
  | nil => exact Except.noConfusion h
  | cons q t =>
    have h2 : (Except.ok (fromDictOfLists (q :: t)) : Except String Graph) = .ok g := h
    have hg : fromDictOfLists (q :: t) = g := by injection h2
    have hmem : q.1 ∈ g.nodes :=
      hg ▸ key_mem_fromDictOfLists (List.mem_cons_self q t)
    have hne : g.nodes ≠ [] := fun hnil => by
      rw [hnil] at hmem
      exact absurd hmem (List.not_mem_nil _)
    refine ⟨List.isEmpty_eq_false.mpr hne, ?_⟩
    unfold computeCentrality
    rw [if_neg (by simpa [List.isEmpty_eq_true] using hne)]
    simpa [List.map_eq_nil_iff] using hne

/-- Witness for C9 at the star mapping. -/
theorem C9_no_empty_branch_w :
    gStar.nodes.isEmpty = false ∧ computeCentrality gStar ≠ [] :=
  C9_no_empty_branch dStar gStar rfl

/-- C10: when centrality scores exist and their maximum is strictly
positive, identify_bottlenecks is non-empty and contains every entry
attaining the maximum (max > max × 0.75 whenever max > 0). -/
theorem C10_max_is_bottleneck (g : Graph)
    (h1 : computeCentrality g ≠ [])
    (h2 : 0 < maxVal ((computeCentrality g).map Prod.snd)) :
    identifyBottlenecks g ≠ [] ∧
    ∀ p ∈ computeCentrality g,
      p.2 = maxVal ((computeCentrality g).map Prod.snd) →
        p ∈ identifyBottlenecks g := by
  have hbool : ¬((computeCentrality g).isEmpty = true) := by
    simpa [List.isEmpty_eq_true] using h1
  have hmem : ∀ p ∈ computeCentrality g,
      p.2 = maxVal ((computeCentrality g).map Prod.snd) →
        p ∈ identifyBottlenecks g := by
    intro p hp hpM
    unfold identifyBottlenecks
    rw [if_neg hbool, List.mem_filter]
    refine ⟨hp, decide_eq_true ?_⟩
    rw [hpM]
    linarith
  refine ⟨?_, hmem⟩
  have hmapne : (computeCentrality g).map Prod.snd ≠ [] := by
    simpa [List.map_eq_nil_iff] using h1
  have hM := maxVal_mem hmapne
  rw [List.mem_map] at hM
  obtain ⟨p0, hp0, hp0M⟩ := hM
  intro hcontr
  have hin := hmem p0 hp0 hp0M
  rw [hcontr] at hin
  exact absurd hin (List.not_mem_nil _)

/-- Witness for C10 at the star graph (max score 1 > 0). -/
theorem C10_max_is_bottleneck_w :
    identifyBottlenecks gStar ≠ [] ∧
    ∀ p ∈ computeCentrality gStar,
      p.2 = maxVal ((computeCentrality gStar).map Prod.snd) →
        p ∈ identifyBottlenecks gStar :=
  C10_max_is_bottleneck gStar (of_decide_eq_true (by with_unfolding_all rfl))
    (of_decide_eq_true (by with_unfolding_all rfl))

end SocialGraph
